/-
Verification of the DriveSync program (driveDog.py) against its
natural-language specification.

The development shallowly embeds the program's core operations:
  * the local filesystem state (output tree and staging tree) as a pair of
    a directory list and an association list of files, each file carrying
    its content bytes, its modification time, and a readability flag that
    models whether reading it for hashing raises an exception;
  * `get_drive_files` (remote tree listing, with its page loop, recursion
    into sub-folders, the log-artifact name filter, and listing errors) as
    a recursive function into `Except`;
  * `md5` (streamed local hashing that returns None when reading raises),
    `download_file` (chunked in-memory download followed by a single
    write), `move_files` (the staging merge, whose copy errors are not
    caught and therefore propagate), the staging purge loop, `sync`
    (the five-phase cycle with its top-level catch), and
    `start_continuous_sync` (the poll loop).

External collaborators are modelled as parameters: the MD5 function of
`hashlib` as an abstract `hash : Bytes → String`, and the Drive media
transport as a per-file-id list of chunk outcomes (`none` = the chunk
request raises).  The log upload (`upload_log_file`) only touches the
remote side and swallows its own errors, so it has no effect on the local
state modelled here.
-/
import Mathlib

namespace DriveSync

/-- A relative filesystem path, as its list of components. -/
abbrev Path := List String

/-- File contents, as a list of bytes. -/
abbrev Bytes := List Nat

/-- A file on the local filesystem: its bytes, its modification time, and
whether reading it back (for hashing) succeeds. -/
structure FileData where
  content : Bytes
  mtime : Nat
  readable : Bool
deriving Repr, DecidableEq

/-- A directory tree (the output tree or the staging tree): the set of
directories below the root (the root itself is `[]`), in `os.walk` order,
and the files keyed by relative path. -/
structure FS where
  dirs : List Path
  files : List (Path × FileData)
deriving Repr, DecidableEq

instance {e a : Type} [DecidableEq e] [DecidableEq a] : DecidableEq (Except e a) := fun x y =>
  match x, y with
  | .ok u, .ok v => if h : u = v then .isTrue (by rw [h]) else .isFalse (by simp [h])
  | .error u, .error v => if h : u = v then .isTrue (by rw [h]) else .isFalse (by simp [h])
  | .ok _, .error _ => .isFalse (by simp)
  | .error _, .ok _ => .isFalse (by simp)

/-- Look a path up in an association list of files. -/
def findFile : List (Path × FileData) → Path → Option FileData
  | [], _ => none
  | (q, fd) :: rest, p => if p = q then some fd else findFile rest p

/-- The file stored at path `p`, if any (`os.path.exists` + `open`). -/
def lookupFile (fs : FS) (p : Path) : Option FileData :=
  findFile fs.files p

/-- Create or overwrite the file at path `p` (`open(path, "wb")`). -/
def setFile (fs : FS) (p : Path) (fd : FileData) : FS :=
  { fs with files := (p, fd) :: fs.files.filter (fun e => decide (e.1 ≠ p)) }

/-- Create a single directory if it does not exist. -/
def addDir (fs : FS) (d : Path) : FS :=
  if d ∈ fs.dirs then fs else { fs with dirs := fs.dirs ++ [d] }

/-- All ancestors of a path, top-down, the path itself included. -/
def pathInits : Path → List Path
  | [] => [[]]
  | a :: rest => [] :: (pathInits rest).map (a :: ·)

/-- `os.makedirs(d, exist_ok=True)`: create `d` and any missing
ancestors. -/
def makedirs (fs : FS) (d : Path) : FS :=
  (pathInits d).foldl addDir fs

/-- `DriveSync.ensure_dir` (driveDog.py lines 58-60): create the
directory only when it does not already exist. -/
def ensure_dir (fs : FS) (d : Path) : FS :=
  if d ∈ fs.dirs then fs else makedirs fs d

/-- `DriveSync.md5` (lines 212-222): stream the file through the hash;
any exception while reading is logged and turned into `None`. -/
def md5 (hash : Bytes → String) (fs : FS) (p : Path) : Option String :=
  match lookupFile fs p with
  | none => none
  | some fd => if fd.readable then some (hash fd.content) else none

/-- The `MediaIoBaseDownload` loop of `download_file` (lines 110-118):
chunks are accumulated in an in-memory buffer; a failing chunk request
(`none`) raises, losing the buffer and yielding no content. -/
def downloadChunks : List (Option Bytes) → Option Bytes
  | [] => some []
  | none :: _ => none
  | some c :: rest =>
    match downloadChunks rest with
    | none => none
    | some r => some (c ++ r)

/-- `DriveSync.download_file` (lines 105-129): download the whole content
into memory; only on completion create the parent directories and write
the file in one step; any exception is caught and reported as `false`
with the filesystem untouched. -/
def download_file (fetch : List (Option Bytes)) (fs : FS) (p : Path) (now : Nat) :
    FS × Bool :=
  match downloadChunks fetch with
  | none => (fs, false)
  | some data => (setFile (makedirs fs p.dropLast) p ⟨data, now, true⟩, true)

/-- The files directly inside directory `d`, as `os.walk` reports them. -/
def filesInDir (fs : FS) (d : Path) : List (Path × FileData) :=
  fs.files.filter (fun e => decide (e.1.dropLast = d))

/-- The inner file loop of `move_files` (lines 138-147): copy each file
of one staging directory to the same relative path under the output root
(`shutil.copy2` after removing any pre-existing destination).  A failing
copy raises: it is not caught inside `move_files`, so the loop stops
there and reports failure. -/
def copyList (copyFails : List Path) :
    List (Path × FileData) → FS → FS × Bool
  | [], fs => (fs, true)
  | (p, fd) :: rest, fs =>
    if p ∈ copyFails then (fs, false)
    else copyList copyFails rest (setFile fs p fd)

/-- The `os.walk` loop of `move_files` (lines 133-147): for each staging
directory, ensure the mirrored output directory exists, then copy its
files; an escaped copy exception aborts the remaining directories. -/
def moveDirs (copyFails : List Path) (intake : FS) :
    List Path → FS → FS × Bool
  | [], fs => (fs, true)
  | d :: rest, fs =>
    match copyList copyFails (filesInDir intake d) (ensure_dir fs d) with
    | (fs2, true) => moveDirs copyFails intake rest fs2
    | (fs2, false) => (fs2, false)

/-- `DriveSync.move_files` (lines 131-147): merge the staging tree into
the output tree.  Returns the updated output tree and whether the pass
completed without a copy exception escaping. -/
def move_files (copyFails : List Path) (intake output : FS) : FS × Bool :=
  moveDirs copyFails intake intake.dirs output

/-- The staging purge loop of `sync` (lines 196-203): walk the staging
tree and `os.remove` every file, each deletion wrapped in its own
try/except, directories untouched.  Files whose deletion raises remain. -/
def purge (deleteFails : List Path) (fs : FS) : FS :=
  { fs with files := fs.files.filter (fun e => decide (e.1 ∈ deleteFails)) }

/-- Whether the first character list starts with the second. -/
def charsStartWith : List Char → List Char → Bool
  | _, [] => true
  | [], _ :: _ => false
  | c :: cs, d :: ds => if c = d then charsStartWith cs ds else false

/-- Python's `str.startswith`: character-wise prefix test. -/
def strStartsWith (s pre : String) : Bool :=
  charsStartWith s.data pre.data

/-- A node of the remote Drive tree.  A node is a folder exactly when its
mimeType is the Drive folder mimeType, which the constructor encodes;
`listFails` marks a folder whose children listing call raises. -/
inductive RNode where
  | file (id name mimeType : String) (md5Checksum : Option String)
      (modifiedTime : String) : RNode
  | folder (id name : String) (listFails : Bool) (children : List RNode) : RNode

/-- The name of a remote node (`item['name']`). -/
def RNode.name : RNode → String
  | .file _ n _ _ _ => n
  | .folder _ n _ _ => n

/-- One flattened listing entry: the fields requested from the Drive API
(lines 77) plus the accumulated relative `path`. -/
structure DriveFile where
  id : String
  name : String
  mimeType : String
  md5Checksum : Option String
  modifiedTime : String
  path : Path
deriving Repr, DecidableEq

mutual

/-- The per-item body of `get_drive_files` (lines 81-93): skip entries
whose name starts with the log artifact name; recurse into folders
(whose own children listing may raise, lines 99-101), prefixing the
children's relative paths with the folder name; plain files get their
own name as path. -/
def processItem : RNode → Except Unit (List DriveFile)
  | .file i n mt c mtime =>
    if strStartsWith n "drive_sync.log" then .ok []
    else .ok [⟨i, n, mt, c, mtime, [n]⟩]
  | .folder _ n fails children =>
    if strStartsWith n "drive_sync.log" then .ok []
    else if fails then .error ()
    else
      match listItems children with
      | .error e => .error e
      | .ok subs => .ok (subs.map fun f => { f with path := n :: f.path })
termination_by structural n => n

/-- The item loop of `get_drive_files`: results of the items are
accumulated in order; an exception from any item aborts the listing. -/
def listItems : List RNode → Except Unit (List DriveFile)
  | [] => .ok []
  | item :: rest =>
    match processItem item with
    | .error e => .error e
    | .ok r =>
      match listItems rest with
      | .error e => .error e
      | .ok r2 => .ok (r ++ r2)
termination_by structural l => l

end

/-- Listing the children of one folder (`self.service.files().list`,
lines 73-79): a raised listing error is logged and re-raised (lines
99-101); otherwise every child item is processed in order.  This is the
expression inlined in the folder branch of `processItem`. -/
def listFolder (fails : Bool) (children : List RNode) :
    Except Unit (List DriveFile) :=
  if fails then .error () else listItems children

/-- The `while True` page loop of `get_drive_files` (lines 71-97): each
page's items are processed and appended to `results` until no
continuation token remains. -/
def listPages : List (List RNode) → Except Unit (List DriveFile)
  | [] => .ok []
  | pg :: rest =>
    match listItems pg with
    | .error e => .error e
    | .ok r =>
      match listPages rest with
      | .error e => .error e
      | .ok r2 => .ok (r ++ r2)

/-- `DriveSync.get_drive_files` (lines 62-103) called on the root folder,
whose listing arrives in pages. -/
def get_drive_files (fails : Bool) (pages : List (List RNode)) :
    Except Unit (List DriveFile) :=
  if fails then .error () else listPages pages

/-- The external collaborators of one run: the `hashlib.md5` digest as an
abstract function of the content, the media transport as a per-file-id
chunk outcome list, and the fault sets for staged-file copies and
purge deletions. -/
structure Env where
  hash : Bytes → String
  chunks : String → List (Option Bytes)
  copyFails : List Path
  deleteFails : List Path

/-- The per-entry body of the reconcile loop of `sync` (lines 181-192):
if a file exists at the candidate local path and its hash equals the
remote hash, skip; otherwise download (the download's Boolean result is
ignored, line 192). -/
def syncEntry (env : Env) (now : Nat) (fs : FS) (f : DriveFile) : FS :=
  match lookupFile fs f.path with
  | some _ =>
    if md5 env.hash fs f.path = f.md5Checksum then fs
    else (download_file (env.chunks f.id) fs f.path now).1
  | none => (download_file (env.chunks f.id) fs f.path now).1

/-- The reconcile loop of `sync` over the flattened listing. -/
def reconcile (env : Env) (now : Nat) (files : List DriveFile) (output : FS) : FS :=
  files.foldl (syncEntry env now) output

/-- `DriveSync.sync` (lines 176-210) acting on `(staging, output)`: list,
reconcile, merge, purge, all under one top-level try/except; a listing
error aborts the cycle with the local state untouched; an escaped merge
error skips the purge.  The final `upload_log_file` call only touches the
remote side and never raises, so it does not appear in the local state. -/
def sync (env : Env) (rootFails : Bool) (rootPages : List (List RNode))
    (now : Nat) (st : FS × FS) : FS × FS :=
  match get_drive_files rootFails rootPages with
  | .error _ => st
  | .ok files =>
    match move_files env.copyFails st.1 (reconcile env now files st.2) with
    | (output2, true) => (purge env.deleteFails st.1, output2)
    | (output2, false) => (st.1, output2)

/-- The inputs of one poll tick: the remote listing snapshot and the
cycle's wall-clock time used as the mtime of files written then. -/
structure CycleInput where
  rootFails : Bool
  rootPages : List (List RNode)
  now : Nat

/-- `DriveSync.start_continuous_sync` (lines 225-237) over a finite
schedule of ticks: each tick runs `sync` to completion (whose own
top-level except never lets an error escape) and the loop proceeds to
the next tick. -/
def start_continuous_sync (env : Env) (cycles : List CycleInput)
    (st : FS × FS) : FS × FS :=
  cycles.foldl (fun st c => sync env c.rootFails c.rootPages c.now st) st

/-! ### Basic facts about the filesystem model -/

theorem findFile_setFile_self (fs : FS) (p : Path) (fd : FileData) :
    findFile (setFile fs p fd).files p = some fd := by
  simp [setFile, findFile]

theorem findFile_filter_ne (l : List (Path × FileData)) (p q : Path) (h : q ≠ p) :
    findFile (l.filter (fun e => decide (e.1 ≠ p))) q = findFile l q := by
  induction l with
  | nil => rfl
  | cons e rest ih =>
    obtain ⟨a, fd⟩ := e
    by_cases hap : a = p
    · rw [List.filter_cons_of_neg (by simp [hap]), ih]
      have hqa : q ≠ a := fun hc => h (hc.trans hap)
      simp [findFile, hqa]
    · rw [List.filter_cons_of_pos (by simp [hap])]
      simp only [findFile]
      by_cases hqa : q = a
      · simp [hqa]
      · rw [if_neg hqa, if_neg hqa, ih]

theorem lookupFile_setFile_self (fs : FS) (p : Path) (fd : FileData) :
    lookupFile (setFile fs p fd) p = some fd :=
  findFile_setFile_self fs p fd

theorem lookupFile_setFile_ne (fs : FS) (p q : Path) (fd : FileData) (h : q ≠ p) :
    lookupFile (setFile fs p fd) q = lookupFile fs q := by
  simp only [lookupFile, setFile, findFile, if_neg h]
  exact findFile_filter_ne fs.files p q h

theorem addDir_files (fs : FS) (d : Path) : (addDir fs d).files = fs.files := by
  simp only [addDir]
  split <;> rfl

theorem foldl_addDir_files (l : List Path) (fs : FS) :
    (l.foldl addDir fs).files = fs.files := by
  induction l generalizing fs with
  | nil => rfl
  | cons d rest ih => simp [List.foldl, ih, addDir_files]

theorem makedirs_files (fs : FS) (d : Path) : (makedirs fs d).files = fs.files :=
  foldl_addDir_files _ fs

theorem ensure_dir_files (fs : FS) (d : Path) : (ensure_dir fs d).files = fs.files := by
  simp only [ensure_dir]
  split
  · rfl
  · exact makedirs_files fs d

theorem setFile_dirs (fs : FS) (p : Path) (fd : FileData) :
    (setFile fs p fd).dirs = fs.dirs := rfl

theorem addDir_dirs_mono {fs : FS} {x : Path} (d : Path) (h : x ∈ fs.dirs) :
    x ∈ (addDir fs d).dirs := by
  simp only [addDir]
  split
  · exact h
  · exact List.mem_append_left _ h

theorem addDir_mem_self (fs : FS) (d : Path) : d ∈ (addDir fs d).dirs := by
  simp only [addDir]
  split
  · assumption
  · exact List.mem_append_right _ (List.mem_singleton.mpr rfl)

theorem foldl_addDir_dirs_mono {fs : FS} {x : Path} (l : List Path) (h : x ∈ fs.dirs) :
    x ∈ (l.foldl addDir fs).dirs := by
  induction l generalizing fs with
  | nil => exact h
  | cons d rest ih => exact ih (addDir_dirs_mono d h)

theorem foldl_addDir_mem {x : Path} (l : List Path) (fs : FS) (h : x ∈ l) :
    x ∈ (l.foldl addDir fs).dirs := by
  induction l generalizing fs with
  | nil => cases h
  | cons d rest ih =>
    rcases List.mem_cons.mp h with rfl | h'
    · exact foldl_addDir_dirs_mono rest (addDir_mem_self fs x)
    · exact ih _ h'

theorem self_mem_pathInits (p : Path) : p ∈ pathInits p := by
  induction p with
  | nil => simp [pathInits]
  | cons a rest ih =>
    simp only [pathInits, List.mem_cons, List.mem_map]
    exact Or.inr ⟨rest, ih, rfl⟩

theorem makedirs_mem_self (fs : FS) (d : Path) : d ∈ (makedirs fs d).dirs :=
  foldl_addDir_mem _ fs (self_mem_pathInits d)

theorem ensure_dir_mem_self (fs : FS) (d : Path) : d ∈ (ensure_dir fs d).dirs := by
  simp only [ensure_dir]
  split
  · assumption
  · exact makedirs_mem_self fs d

theorem ensure_dir_dirs_mono {fs : FS} {x : Path} (d : Path) (h : x ∈ fs.dirs) :
    x ∈ (ensure_dir fs d).dirs := by
  simp only [ensure_dir]
  split
  · exact h
  · exact foldl_addDir_dirs_mono _ h

theorem ensure_dir_of_mem {fs : FS} {d : Path} (h : d ∈ fs.dirs) :
    ensure_dir fs d = fs := by
  simp [ensure_dir, h]

theorem copyList_dirs (cf : List Path) (l : List (Path × FileData)) (fs : FS) :
    ((copyList cf l fs).1).dirs = fs.dirs := by
  induction l generalizing fs with
  | nil => rfl
  | cons e rest ih =>
    cases e with
    | mk p fd =>
      simp only [copyList]
      split
      · rfl
      · exact (ih _).trans (setFile_dirs fs p fd)

theorem moveDirs_dirs_mono {cf : List Path} {intake : FS} {x : Path}
    (ds : List Path) (fs : FS) (h : x ∈ fs.dirs) :
    x ∈ ((moveDirs cf intake ds fs).1).dirs := by
  induction ds generalizing fs with
  | nil => exact h
  | cons d rest ih =>
    simp only [moveDirs]
    split
    · next fs2 heq =>
      apply ih
      have : fs2 = (copyList cf (filesInDir intake d) (ensure_dir fs d)).1 := by
        rw [heq]
      rw [this, copyList_dirs]
      exact ensure_dir_dirs_mono d h
    · next fs2 heq =>
      have : fs2 = (copyList cf (filesInDir intake d) (ensure_dir fs d)).1 := by
        rw [heq]
      simp only [this, copyList_dirs]
      exact ensure_dir_dirs_mono d h

theorem moveDirs_mem_dirs {cf : List Path} {intake : FS}
    (ds : List Path) (fs fs' : FS)
    (h : moveDirs cf intake ds fs = (fs', true)) :
    ∀ d ∈ ds, d ∈ fs'.dirs := by
  induction ds generalizing fs with
  | nil => intro d hd; cases hd
  | cons d rest ih =>
    intro x hx
    simp only [moveDirs] at h
    split at h
    · next fs2 heq =>
      rcases List.mem_cons.mp hx with rfl | hx'
      · have hfs2 : fs2 = (copyList cf (filesInDir intake x) (ensure_dir fs x)).1 := by
          rw [heq]
        have hmem : x ∈ fs2.dirs := by
          rw [hfs2, copyList_dirs]
          exact ensure_dir_mem_self fs x
        have hmono := @moveDirs_dirs_mono cf intake x rest fs2 hmem
        rw [h] at hmono
        exact hmono
      · exact ih fs2 h x hx'
    · next fs2 heq => cases h

/-! ### Facts about the remote listing -/

/-- Sequencing of two listing results, as the item loop composes them. -/
def exAppend (x y : Except Unit (List DriveFile)) : Except Unit (List DriveFile) :=
  match x with
  | .error e => .error e
  | .ok r =>
    match y with
    | .error e => .error e
    | .ok r2 => .ok (r ++ r2)

theorem listItems_append (a b : List RNode) :
    listItems (a ++ b) = exAppend (listItems a) (listItems b) := by
  induction a with
  | nil =>
    simp only [List.nil_append, listItems, exAppend]
    cases listItems b <;> simp
  | cons i rest ih =>
    simp only [List.cons_append, listItems, List.append_eq, ih, exAppend]
    cases processItem i with
    | error e => rfl
    | ok r =>
      cases listItems rest with
      | error e => rfl
      | ok r2 =>
        cases listItems b with
        | error e => rfl
        | ok r3 => simp

theorem listPages_eq_flatten (pages : List (List RNode)) :
    listPages pages = listItems pages.flatten := by
  induction pages with
  | nil => rfl
  | cons pg rest ih =>
    simp only [List.flatten_cons, listItems_append, listPages, ih, exAppend]

theorem listPages_singleton (l : List RNode) : listPages [l] = listItems l := by
  simp only [listPages, listItems]
  cases listItems l with
  | error e => rfl
  | ok r => simp

mutual

theorem processItem_names (n : RNode) (res : List DriveFile)
    (h : processItem n = .ok res) :
    ∀ f ∈ res, strStartsWith f.name "drive_sync.log" = false := by
  cases n with
  | file i nm mt c mtime =>
    by_cases hs : strStartsWith nm "drive_sync.log" = true
    · simp only [processItem, if_pos hs] at h
      cases h
      intro f hf; cases hf
    · simp only [processItem, if_neg hs] at h
      cases h
      intro f hf
      rcases List.mem_singleton.mp hf with rfl
      simpa using hs
  | folder i nm fails children =>
    by_cases hs : strStartsWith nm "drive_sync.log" = true
    · simp only [processItem, if_pos hs] at h
      cases h
      intro f hf; cases hf
    · simp only [processItem, if_neg hs] at h
      by_cases hfail : fails = true
      · rw [if_pos hfail] at h
        cases h
      · rw [if_neg hfail] at h
        cases hsub : listItems children with
        | error e => rw [hsub] at h; cases h
        | ok subs =>
          rw [hsub] at h
          cases h
          intro f hf
          rcases List.mem_map.mp hf with ⟨g, hg, rfl⟩
          exact listItems_names children subs hsub g hg
termination_by structural n

theorem listItems_names (items : List RNode) (res : List DriveFile)
    (h : listItems items = .ok res) :
    ∀ f ∈ res, strStartsWith f.name "drive_sync.log" = false := by
  cases items with
  | nil =>
    cases h
    intro f hf; cases hf
  | cons item rest =>
    simp only [listItems] at h
    cases hi : processItem item with
    | error e => rw [hi] at h; cases h
    | ok r =>
      rw [hi] at h
      cases hr : listItems rest with
      | error e => rw [hr] at h; cases h
      | ok r2 =>
        rw [hr] at h
        cases h
        intro f hf
        rcases List.mem_append.mp hf with hf' | hf'
        · exact processItem_names item r hi f hf'
        · exact listItems_names rest r2 hr f hf'
termination_by structural items

end

theorem get_drive_files_names (fails : Bool) (pages : List (List RNode))
    (res : List DriveFile) (h : get_drive_files fails pages = .ok res) :
    ∀ f ∈ res, strStartsWith f.name "drive_sync.log" = false := by
  by_cases hfail : fails = true
  · simp only [get_drive_files, if_pos hfail] at h
    cases h
  · simp only [get_drive_files, if_neg hfail, listPages_eq_flatten] at h
    exact listItems_names pages.flatten res h

theorem listItems_error_of_mem {items : List RNode} {n : RNode}
    (hn : n ∈ items) (h : processItem n = .error ()) :
    listItems items = .error () := by
  induction items with
  | nil => cases hn
  | cons item rest ih =>
    simp only [listItems]
    rcases List.mem_cons.mp hn with rfl | hn'
    · rw [h]
    · cases hi : processItem item with
      | error e => cases e; rfl
      | ok r => rw [ih hn']

theorem listPages_error_of_mem {pages : List (List RNode)} {pg : List RNode}
    (hpg : pg ∈ pages) (h : listItems pg = .error ()) :
    listPages pages = .error () := by
  induction pages with
  | nil => cases hpg
  | cons p rest ih =>
    simp only [listPages]
    rcases List.mem_cons.mp hpg with rfl | hpg'
    · rw [h]
    · cases hp : listItems p with
      | error e => cases e; rfl
      | ok r => rw [ih hpg']

/-- Helper: a cycle whose listing phase raises leaves both trees
untouched (the error is caught at the top of `sync`, line 209). -/
theorem sync_listing_error (env : Env) (fails : Bool) (pages : List (List RNode))
    (now : Nat) (st : FS × FS) (h : get_drive_files fails pages = .error ()) :
    sync env fails pages now st = st := by
  simp only [sync, h]

/-! ### Claim theorems -/

/-- C4: a remote folder "X" containing folder "Y" containing leaf "f"
flattens to the relative path X/Y/f (as components, `["X", "Y", "f"]`);
and a listing split into pages yields exactly the same result as a
single-page listing of the same items. -/
theorem C4_tree_flattening_and_paging :
    (∀ (xi yi fi mt : String) (c : Option String) (mtime x y fn : String),
      strStartsWith x "drive_sync.log" = false →
      strStartsWith y "drive_sync.log" = false →
      strStartsWith fn "drive_sync.log" = false →
      get_drive_files false
          [[RNode.folder xi x false [RNode.folder yi y false
              [RNode.file fi fn mt c mtime]]]]
        = .ok [⟨fi, fn, mt, c, mtime, [x, y, fn]⟩])
  ∧ (∀ fails pages,
      get_drive_files fails pages = get_drive_files fails [pages.flatten]) := by
  constructor
  · intro xi yi fi mt c mtime x y fn hx hy hf
    simp [get_drive_files, listPages, listItems, processItem, hx, hy, hf]
  · intro fails pages
    by_cases hfail : fails = true
    · simp [get_drive_files, hfail]
    · simp only [get_drive_files, if_neg hfail]
      rw [listPages_eq_flatten, listPages_singleton]

/-- Witness for C4 at concrete input: the tree X/Y/f and a two-page
listing versus its single-page flattening. -/
theorem C4_tree_flattening_and_paging_witness :
    get_drive_files false
        [[RNode.folder "ix" "X" false [RNode.folder "iy" "Y" false
            [RNode.file "if" "f" "text/plain" (some "h") "t0"]]]]
      = .ok [⟨"if", "f", "text/plain", some "h", "t0", ["X", "Y", "f"]⟩] ∧
    get_drive_files false
        [[RNode.file "ia" "a" "text/plain" none "t0"],
         [RNode.file "ib" "b" "text/plain" none "t0"]]
      = get_drive_files false
        [([[RNode.file "ia" "a" "text/plain" none "t0"],
           [RNode.file "ib" "b" "text/plain" none "t0"]] : List (List RNode)).flatten] := by
  constructor
  · exact C4_tree_flattening_and_paging.1 "ix" "iy" "if" "text/plain" (some "h")
      "t0" "X" "Y" "f" (by decide) (by decide) (by decide)
  · exact C4_tree_flattening_and_paging.2 false
      [[RNode.file "ia" "a" "text/plain" none "t0"],
       [RNode.file "ib" "b" "text/plain" none "t0"]]

/-- C5: a chunk failure during a download leaves the filesystem exactly as
it was (no partial file), and the file is only ever written with the
complete downloaded content. -/
theorem C5_no_partial_download :
    ∀ (fetch : List (Option Bytes)) (fs : FS) (p : Path) (now : Nat),
      (downloadChunks fetch = none → download_file fetch fs p now = (fs, false))
    ∧ (∀ data, downloadChunks fetch = some data →
        lookupFile (download_file fetch fs p now).1 p = some ⟨data, now, true⟩) := by
  intro fetch fs p now
  constructor
  · intro h
    simp [download_file, h]
  · intro data h
    simp only [download_file, h]
    exact lookupFile_setFile_self _ p _

/-- Witness for C5: a transfer whose second chunk raises after a
successful first chunk leaves the filesystem untouched. -/
theorem C5_no_partial_download_witness :
    downloadChunks [some [1], none] = none ∧
    download_file [some [1], none] ⟨[[]], []⟩ ["f"] 3 = (⟨[[]], []⟩, false) :=
  ⟨rfl, (C5_no_partial_download [some [1], none] ⟨[[]], []⟩ ["f"] 3).1 rfl⟩

/-- C6: a listing error for a folder at any nesting depth propagates to
the whole listing; a cycle whose listing errors leaves both trees
untouched (all later phases skipped); and the poll loop still runs the
following cycles. -/
theorem C6_listing_error_aborts_cycle :
    (∀ (pages : List (List RNode)) (pg : List RNode) (n : RNode),
      pg ∈ pages → n ∈ pg → processItem n = .error () →
      get_drive_files false pages = .error ())
  ∧ (∀ env fails pages now st,
      get_drive_files fails pages = .error () →
      sync env fails pages now st = st)
  ∧ (∀ env (c : CycleInput) cs st,
      get_drive_files c.rootFails c.rootPages = .error () →
      start_continuous_sync env (c :: cs) st = start_continuous_sync env cs st) := by
  refine ⟨?_, ?_, ?_⟩
  · intro pages pg n hpg hn h
    simp only [get_drive_files, if_neg (by simp : ¬false = true)]
    exact listPages_error_of_mem hpg (listItems_error_of_mem hn h)
  · exact fun env fails pages now st h => sync_listing_error env fails pages now st h
  · intro env c cs st h
    simp only [start_continuous_sync, List.foldl]
    rw [sync_listing_error env c.rootFails c.rootPages c.now st h]

/-- Witness for C6: a failing folder nested two levels deep aborts the
cycle and the next cycle still runs. -/
theorem C6_listing_error_aborts_cycle_witness :
    get_drive_files false [[RNode.folder "ix" "X" false
        [RNode.folder "iy" "Y" true []]]] = .error () ∧
    sync ⟨fun _ => "h", fun _ => [], [], []⟩ false
        [[RNode.folder "ix" "X" false [RNode.folder "iy" "Y" true []]]] 1
        (⟨[[]], []⟩, ⟨[[]], []⟩) = (⟨[[]], []⟩, ⟨[[]], []⟩) := by
  constructor
  · exact C6_listing_error_aborts_cycle.1
      [[RNode.folder "ix" "X" false [RNode.folder "iy" "Y" true []]]]
      [RNode.folder "ix" "X" false [RNode.folder "iy" "Y" true []]]
      (RNode.folder "ix" "X" false [RNode.folder "iy" "Y" true []])
      (List.mem_singleton_self _) (List.mem_singleton_self _) (by decide)
  · exact C6_listing_error_aborts_cycle.2.1 ⟨fun _ => "h", fun _ => [], [], []⟩
      false [[RNode.folder "ix" "X" false [RNode.folder "iy" "Y" true []]]] 1
      (⟨[[]], []⟩, ⟨[[]], []⟩) (by decide)

/-- C8: no entry of the flattened listing has a name starting with the
log artifact name `drive_sync.log`, at any nesting depth, so no such
entry is ever considered for fetching. -/
theorem C8_log_exclusion :
    ∀ (fails : Bool) (pages : List (List RNode)) (res : List DriveFile),
      get_drive_files fails pages = .ok res →
      ∀ f ∈ res, strStartsWith f.name "drive_sync.log" = false :=
  get_drive_files_names

/-- Witness for C8: a listing whose remote tree holds a nested
`drive_sync.log.1` file flattens without it. -/
theorem C8_log_exclusion_witness :
    get_drive_files false
        [[RNode.folder "ix" "X" false
            [RNode.file "il" "drive_sync.log.1" "text/plain" none "t0"],
          RNode.file "ia" "a" "text/plain" none "t0"]]
      = .ok [⟨"ia", "a", "text/plain", none, "t0", ["a"]⟩] ∧
    (∀ f ∈ [(⟨"ia", "a", "text/plain", none, "t0", ["a"]⟩ : DriveFile)],
      strStartsWith f.name "drive_sync.log" = false) := by
  constructor
  · decide
  · exact C8_log_exclusion false
      [[RNode.folder "ix" "X" false
          [RNode.file "il" "drive_sync.log.1" "text/plain" none "t0"],
        RNode.file "ia" "a" "text/plain" none "t0"]]
      [⟨"ia", "a", "text/plain", none, "t0", ["a"]⟩] (by decide)

/-- C9: when the merge pass completes, every directory of the staging
tree (empty ones included) exists at the same relative path under the
output tree. -/
theorem C9_merge_mirrors_dirs :
    ∀ (cf : List Path) (intake out out' : FS),
      move_files cf intake out = (out', true) →
      ∀ d ∈ intake.dirs, d ∈ out'.dirs :=
  fun _cf intake out out' h => moveDirs_mem_dirs intake.dirs out out' h

/-- Witness for C9: an empty staging directory `e` is mirrored into the
output tree by the merge. -/
theorem C9_merge_mirrors_dirs_witness :
    move_files [] ⟨[[], ["e"]], []⟩ ⟨[[]], []⟩ = (⟨[[], ["e"]], []⟩, true) ∧
    ["e"] ∈ (FS.mk [[], ["e"]] []).dirs ∧
    ["e"] ∈ (FS.mk [[], ["e"]] []).dirs := by
  refine ⟨by decide, by decide, ?_⟩
  exact C9_merge_mirrors_dirs [] ⟨[[], ["e"]], []⟩ ⟨[[]], []⟩ ⟨[[], ["e"]], []⟩
    (by decide) ["e"] (by decide)

/-- C10: the staging purge deletes only files: the staging tree's
directory list is unchanged by `purge`, and across a whole cycle the
staging directory skeleton is preserved. -/
theorem C10_purge_preserves_dirs :
    (∀ (df : List Path) (s : FS), (purge df s).dirs = s.dirs)
  ∧ (∀ env fails pages now (st : FS × FS),
      ((sync env fails pages now st).1).dirs = st.1.dirs) := by
  constructor
  · intro df s; rfl
  · intro env fails pages now st
    simp only [sync]
    cases get_drive_files fails pages with
    | error e => rfl
    | ok files =>
      simp only
      split
      · rfl
      · rfl

/-! ### Facts about the reconcile loop and merge idempotence -/

theorem md5_eq_of_lookup_eq (hash : Bytes → String) (a b : FS) (p : Path)
    (h : lookupFile a p = lookupFile b p) : md5 hash a p = md5 hash b p := by
  unfold md5
  rw [h]

theorem lookupFile_makedirs (fs : FS) (d : Path) (q : Path) :
    lookupFile (makedirs fs d) q = lookupFile fs q := by
  simp only [lookupFile, makedirs_files]

theorem syncEntry_lookup_ne (env : Env) (now : Nat) (fs : FS) (f : DriveFile)
    (q : Path) (hq : q ≠ f.path) :
    lookupFile (syncEntry env now fs f) q = lookupFile fs q := by
  have hdl : lookupFile (download_file (env.chunks f.id) fs f.path now).1 q
      = lookupFile fs q := by
    unfold download_file
    cases downloadChunks (env.chunks f.id) with
    | none => rfl
    | some data =>
      simp only
      rw [lookupFile_setFile_ne _ _ _ _ hq, lookupFile_makedirs]
  unfold syncEntry
  cases lookupFile fs f.path with
  | none => exact hdl
  | some fd =>
    simp only
    split
    · rfl
    · exact hdl

theorem reconcile_lookup_ne (env : Env) (now : Nat) (files : List DriveFile)
    (fs : FS) (q : Path) (hq : ∀ f ∈ files, f.path ≠ q) :
    lookupFile (reconcile env now files fs) q = lookupFile fs q := by
  induction files generalizing fs with
  | nil => rfl
  | cons g rest ih =>
    simp only [reconcile, List.foldl] at *
    rw [ih _ fun f hf => hq f (List.mem_cons_of_mem g hf)]
    exact syncEntry_lookup_ne env now fs g q
      fun hc => hq g (List.mem_cons_self g rest) hc.symm

/-- Helper: after one reconcile step for an entry whose fetch delivers
content matching its remote checksum, the local file's hash equals the
checksum. -/
theorem syncEntry_establishes (env : Env) (now : Nat) (fs : FS) (f : DriveFile)
    (h : ∃ data, downloadChunks (env.chunks f.id) = some data ∧
      f.md5Checksum = some (env.hash data)) :
    md5 env.hash (syncEntry env now fs f) f.path = f.md5Checksum := by
  obtain ⟨data, hdl, hck⟩ := h
  have hdown : md5 env.hash (download_file (env.chunks f.id) fs f.path now).1 f.path
      = f.md5Checksum := by
    unfold download_file
    rw [hdl]
    simp only [md5, lookupFile_setFile_self]
    rw [hck]
    simp
  unfold syncEntry
  cases lookupFile fs f.path with
  | none => exact hdown
  | some fd =>
    simp only
    by_cases hc : md5 env.hash fs f.path = f.md5Checksum
    · rw [if_pos hc]
      exact hc
    · rw [if_neg hc]
      exact hdown

/-- Helper: after a reconcile pass in which every entry's fetch delivers
content matching its checksum and entry paths are pairwise distinct,
every entry's local hash equals its remote checksum. -/
theorem reconcile_establishes (env : Env) (now : Nat) (files : List DriveFile)
    (out : FS)
    (hok : ∀ f ∈ files, ∃ data, downloadChunks (env.chunks f.id) = some data ∧
      f.md5Checksum = some (env.hash data))
    (hnd : (files.map DriveFile.path).Nodup) :
    ∀ f ∈ files, md5 env.hash (reconcile env now files out) f.path = f.md5Checksum := by
  induction files generalizing out with
  | nil => intro f hf; cases hf
  | cons g rest ih =>
    intro f hf
    have hnd' : (∀ x ∈ rest, ¬x.path = g.path) ∧ (rest.map DriveFile.path).Nodup := by
      simpa using hnd
    rcases List.mem_cons.mp hf with rfl | hf'
    · have hrest : ∀ f' ∈ rest, f'.path ≠ f.path := fun f' h' => hnd'.1 f' h'
      have hstep : reconcile env now (f :: rest) out
          = reconcile env now rest (syncEntry env now out f) := rfl
      rw [hstep]
      rw [md5_eq_of_lookup_eq env.hash _ (syncEntry env now out f) f.path
        (reconcile_lookup_ne env now rest _ f.path hrest)]
      exact syncEntry_establishes env now out f (hok f (List.mem_cons_self f rest))
    · exact ih (syncEntry env now out g)
        (fun f' h' => hok f' (List.mem_cons_of_mem g h')) hnd'.2 f hf'

/-- Helper: an entry whose local hash already equals its (present) remote
checksum is skipped: the reconcile step is the identity. -/
theorem syncEntry_skip (env : Env) (now : Nat) (out : FS) (f : DriveFile)
    (hmd5 : md5 env.hash out f.path = f.md5Checksum)
    (hsome : f.md5Checksum ≠ none) :
    syncEntry env now out f = out := by
  unfold syncEntry
  cases hl : lookupFile out f.path with
  | none =>
    exfalso
    apply hsome
    rw [← hmd5]
    simp [md5, hl]
  | some fd =>
    simp only
    rw [if_pos hmd5]

theorem reconcile_id (env : Env) (now : Nat) (files : List DriveFile) (out : FS)
    (h : ∀ f ∈ files, syncEntry env now out f = out) :
    reconcile env now files out = out := by
  induction files with
  | nil => rfl
  | cons g rest ih =>
    have hstep : reconcile env now (g :: rest) out
        = reconcile env now rest (syncEntry env now out g) := rfl
    rw [hstep, h g (List.mem_cons_self g rest)]
    exact ih fun f hf => h f (List.mem_cons_of_mem g hf)

theorem filesInDir_empty (fs : FS) (d : Path) (h : fs.files = []) :
    filesInDir fs d = [] := by
  simp [filesInDir, h]

/-- Helper: merging a staging tree that holds no files only ensures the
mirrored directories, and always completes. -/
theorem moveDirs_no_files (cf : List Path) (intake : FS) (ds : List Path)
    (fs : FS) (h : intake.files = []) :
    moveDirs cf intake ds fs = (ds.foldl ensure_dir fs, true) := by
  induction ds generalizing fs with
  | nil => rfl
  | cons d rest ih =>
    simp only [moveDirs, filesInDir_empty intake d h, copyList, List.foldl]
    exact ih _

theorem foldl_ensure_dir_files (ds : List Path) (fs : FS) :
    (ds.foldl ensure_dir fs).files = fs.files := by
  induction ds generalizing fs with
  | nil => rfl
  | cons d rest ih => simp [List.foldl, ih, ensure_dir_files]

theorem foldl_ensure_dir_dirs_mono {x : Path} (ds : List Path) (fs : FS)
    (h : x ∈ fs.dirs) : x ∈ (ds.foldl ensure_dir fs).dirs := by
  induction ds generalizing fs with
  | nil => exact h
  | cons d rest ih => exact ih _ (ensure_dir_dirs_mono d h)

theorem foldl_ensure_dir_mem {x : Path} (ds : List Path) (fs : FS) (h : x ∈ ds) :
    x ∈ (ds.foldl ensure_dir fs).dirs := by
  induction ds generalizing fs with
  | nil => cases h
  | cons d rest ih =>
    rcases List.mem_cons.mp h with rfl | h'
    · exact foldl_ensure_dir_dirs_mono rest _ (ensure_dir_mem_self fs x)
    · exact ih _ h'

theorem foldl_ensure_dir_id (ds : List Path) (fs : FS)
    (h : ∀ d ∈ ds, d ∈ fs.dirs) : ds.foldl ensure_dir fs = fs := by
  induction ds with
  | nil => rfl
  | cons d rest ih =>
    simp only [List.foldl, ensure_dir_of_mem (h d (List.mem_cons_self d rest))]
    exact ih fun d' hd' => h d' (List.mem_cons_of_mem d hd')

/-- Helper: merging a fileless staging tree whose directories already all
exist under the output root changes nothing. -/
theorem move_files_empty_id (cf : List Path) (intake out : FS)
    (hfiles : intake.files = []) (hdirs : ∀ d ∈ intake.dirs, d ∈ out.dirs) :
    move_files cf intake out = (out, true) := by
  rw [move_files, moveDirs_no_files cf intake intake.dirs out hfiles,
    foldl_ensure_dir_id intake.dirs out hdirs]

theorem purge_nil_fails (s : FS) : purge [] s = { s with files := [] } := by
  simp [purge]

theorem purge_of_no_files (df : List Path) (s : FS) (h : s.files = []) :
    purge df s = s := by
  cases s with
  | mk dirs files =>
    simp only at h
    subst h
    rfl

/-- Helper: an entry whose download raises leaves the output tree
untouched (`download_file` catches the error and returns `False`, whose
value `sync` ignores). -/
theorem syncEntry_fetch_fail (env : Env) (now : Nat) (fs : FS) (f : DriveFile)
    (h : downloadChunks (env.chunks f.id) = none) :
    syncEntry env now fs f = fs := by
  simp only [syncEntry, download_file, h]
  cases lookupFile fs f.path with
  | none => rfl
  | some fd => rw [ite_self]

/-- C2 counterexample: a local file whose read raises (`md5` returns
`None`) compared against an entry with no remote checksum (`None`)
satisfies `local_md5 == drive_md5`, so the entry is skipped — it is not
fetched, though a fetch would have changed the filesystem. -/
theorem C2_hash_failure_counterexample :
    md5 (fun _ => "h") ⟨[[]], [(["f"], ⟨[9], 0, false⟩)]⟩ ["f"] = none ∧
    (⟨"id1", "f", "text/plain", none, "t0", ["f"]⟩ : DriveFile).md5Checksum = none ∧
    syncEntry ⟨fun _ => "h", fun _ => [some [5]], [], []⟩ 1
        ⟨[[]], [(["f"], ⟨[9], 0, false⟩)]⟩
        ⟨"id1", "f", "text/plain", none, "t0", ["f"]⟩
      = ⟨[[]], [(["f"], ⟨[9], 0, false⟩)]⟩ ∧
    (download_file ((⟨fun _ => "h", fun _ => [some [5]], [], []⟩ : Env).chunks "id1")
        ⟨[[]], [(["f"], ⟨[9], 0, false⟩)]⟩ ["f"] 1).1
      ≠ ⟨[[]], [(["f"], ⟨[9], 0, false⟩)]⟩ := by
  refine ⟨rfl, rfl, by decide, by decide⟩

/-- C2 amended: with a local file present, a hash-computation failure
forces a fetch whenever the remote hash is present, and an absent remote
hash forces a fetch whenever the hash computation succeeds; but when the
hash computation fails and the remote hash is absent at the same time,
the entry is skipped. -/
theorem C2_hash_failure_amended :
    ∀ (env : Env) (now : Nat) (fs : FS) (f : DriveFile) (fd : FileData),
      lookupFile fs f.path = some fd →
      ((md5 env.hash fs f.path = none → f.md5Checksum ≠ none →
          syncEntry env now fs f = (download_file (env.chunks f.id) fs f.path now).1)
      ∧ (f.md5Checksum = none → md5 env.hash fs f.path ≠ none →
          syncEntry env now fs f = (download_file (env.chunks f.id) fs f.path now).1)
      ∧ (md5 env.hash fs f.path = none → f.md5Checksum = none →
          syncEntry env now fs f = fs)) := by
  intro env now fs f fd hlook
  refine ⟨?_, ?_, ?_⟩
  · intro hmd5 hck
    simp only [syncEntry, hlook]
    rw [if_neg]
    rw [hmd5]
    exact fun hc => hck hc.symm
  · intro hck hmd5
    simp only [syncEntry, hlook]
    rw [if_neg]
    rw [hck]
    exact hmd5
  · intro hmd5 hck
    simp only [syncEntry, hlook]
    rw [if_pos]
    rw [hmd5, hck]

/-- Witness for C2 amended: an unreadable local file together with a
present remote checksum forces the fetch branch. -/
theorem C2_hash_failure_amended_witness :
    md5 (fun _ => "h") ⟨[[]], [(["g"], ⟨[9], 0, false⟩)]⟩ ["g"] = none ∧
    syncEntry ⟨fun _ => "h", fun _ => [some [5]], [], []⟩ 1
        ⟨[[]], [(["g"], ⟨[9], 0, false⟩)]⟩
        ⟨"id2", "g", "text/plain", some "h", "t0", ["g"]⟩
      = (download_file ((⟨fun _ => "h", fun _ => [some [5]], [], []⟩ : Env).chunks "id2")
          ⟨[[]], [(["g"], ⟨[9], 0, false⟩)]⟩ ["g"] 1).1 := by
  refine ⟨rfl, ?_⟩
  exact (C2_hash_failure_amended ⟨fun _ => "h", fun _ => [some [5]], [], []⟩ 1
      ⟨[[]], [(["g"], ⟨[9], 0, false⟩)]⟩
      ⟨"id2", "g", "text/plain", some "h", "t0", ["g"]⟩
      ⟨[9], 0, false⟩ rfl).1 rfl (by decide)

/-- C3 counterexample: with two staged files `a` and `b` (in walk order)
and a copy failure on `a`, the cycle ends with `b` not copied to the
output tree and with no staged file deleted — the copy error aborts the
merge and skips the purge, contradicting the claimed containment. -/
theorem C3_merge_failure_counterexample :
    sync ⟨fun _ => "h", fun _ => [none], [["a"]], []⟩ false [] 5
        (⟨[[]], [(["a"], ⟨[1], 0, true⟩), (["b"], ⟨[2], 0, true⟩)]⟩, ⟨[[]], []⟩)
      = (⟨[[]], [(["a"], ⟨[1], 0, true⟩), (["b"], ⟨[2], 0, true⟩)]⟩, ⟨[[]], []⟩) ∧
    lookupFile (⟨[[]], []⟩ : FS) ["b"] = none ∧
    lookupFile (⟨[[]], [(["a"], ⟨[1], 0, true⟩), (["b"], ⟨[2], 0, true⟩)]⟩ : FS) ["b"]
      = some ⟨[2], 0, true⟩ := by
  refine ⟨by decide, rfl, by decide⟩

/-- C3 amended: a copy failure during the staging merge aborts the merge
at that file — the remaining staged files of that pass are not copied —
and the cycle then skips the purge entirely, leaving every staged file in
place; the staged files are deleted only in cycles whose merge pass
completes without error. -/
theorem C3_merge_failure_amended :
    (∀ (cf : List Path) (p : Path) (fd : FileData)
        (rest : List (Path × FileData)) (fs : FS),
      p ∈ cf → copyList cf ((p, fd) :: rest) fs = (fs, false))
  ∧ (∀ env fails pages now (st : FS × FS) files o2,
      get_drive_files fails pages = .ok files →
      move_files env.copyFails st.1 (reconcile env now files st.2) = (o2, false) →
      sync env fails pages now st = (st.1, o2)) := by
  constructor
  · intro cf p fd rest fs hp
    simp [copyList, hp]
  · intro env fails pages now st files o2 hlist hmove
    simp only [sync, hlist, hmove]

/-- Witness for C3 amended at the two-staged-files input: the failing
copy stops the file loop immediately and the cycle keeps the staging
tree intact. -/
theorem C3_merge_failure_amended_witness :
    copyList [["a"]] [(["a"], ⟨[1], 0, true⟩), (["b"], ⟨[2], 0, true⟩)] ⟨[[]], []⟩
      = (⟨[[]], []⟩, false) ∧
    sync ⟨fun _ => "h", fun _ => [none], [["a"]], []⟩ false [] 5
        (⟨[[]], [(["a"], ⟨[1], 0, true⟩), (["b"], ⟨[2], 0, true⟩)]⟩, ⟨[[]], []⟩)
      = ((⟨[[]], [(["a"], ⟨[1], 0, true⟩), (["b"], ⟨[2], 0, true⟩)]⟩ : FS), ⟨[[]], []⟩) := by
  constructor
  · exact C3_merge_failure_amended.1 [["a"]] ["a"] ⟨[1], 0, true⟩
      [(["b"], ⟨[2], 0, true⟩)] ⟨[[]], []⟩ (by decide)
  · exact C3_merge_failure_amended.2 ⟨fun _ => "h", fun _ => [none], [["a"]], []⟩
      false [] 5
      (⟨[[]], [(["a"], ⟨[1], 0, true⟩), (["b"], ⟨[2], 0, true⟩)]⟩, ⟨[[]], []⟩)
      [] ⟨[[]], []⟩ (by decide) (by decide)

/-- C7: a fetch failure for one entry leaves the state exactly as if the
listing had not contained that entry — every other entry is processed
unchanged — and a cycle whose listing succeeded always carries on
through the merge and purge phases. -/
theorem C7_fetch_failure_isolated :
    (∀ env now (out : FS) (pre post : List DriveFile) (bad : DriveFile),
      downloadChunks (env.chunks bad.id) = none →
      reconcile env now (pre ++ bad :: post) out = reconcile env now (pre ++ post) out)
  ∧ (∀ env fails pages now (st : FS × FS) files,
      get_drive_files fails pages = .ok files →
      sync env fails pages now st =
        match move_files env.copyFails st.1 (reconcile env now files st.2) with
        | (o2, true) => (purge env.deleteFails st.1, o2)
        | (o2, false) => (st.1, o2)) := by
  constructor
  · intro env now out pre post bad h
    simp only [reconcile, List.foldl_append, List.foldl]
    rw [syncEntry_fetch_fail env now _ bad h]
  · intro env fails pages now st files hlist
    simp only [sync, hlist]

/-- Witness for C7: with a failing first entry and a healthy second one,
the reconcile pass equals the pass over the second entry alone. -/
theorem C7_fetch_failure_isolated_witness :
    downloadChunks ((⟨fun _ => "h",
        fun i => if i = "idb" then [none] else [some [5]], [], []⟩ : Env).chunks "idb")
      = none ∧
    reconcile ⟨fun _ => "h", fun i => if i = "idb" then [none] else [some [5]], [], []⟩ 1
        [⟨"idb", "b", "text/plain", some "h", "t0", ["b"]⟩,
         ⟨"idg", "g", "text/plain", some "h", "t0", ["g"]⟩] ⟨[[]], []⟩
      = reconcile ⟨fun _ => "h", fun i => if i = "idb" then [none] else [some [5]], [], []⟩ 1
        [⟨"idg", "g", "text/plain", some "h", "t0", ["g"]⟩] ⟨[[]], []⟩ := by
  refine ⟨rfl, ?_⟩
  exact C7_fetch_failure_isolated.1
    ⟨fun _ => "h", fun i => if i = "idb" then [none] else [some [5]], [], []⟩ 1
    ⟨[[]], []⟩ [] [⟨"idg", "g", "text/plain", some "h", "t0", ["g"]⟩]
    ⟨"idb", "b", "text/plain", some "h", "t0", ["b"]⟩ rfl

/-- C1 counterexample: a remote entry with no content hash (`md5Checksum`
absent) is re-downloaded by every cycle even when nothing changed: after
a first cycle at time 1 the file's mtime is 1, and an identical second
cycle at time 2 rewrites it, leaving mtime 2. -/
theorem C1_idempotence_counterexample :
    get_drive_files false [[RNode.file "id1" "f" "text/plain" none "t0"]]
      = .ok [⟨"id1", "f", "text/plain", none, "t0", ["f"]⟩] ∧
    (lookupFile (sync ⟨fun _ => "h", fun _ => [some [7]], [], []⟩ false
        [[RNode.file "id1" "f" "text/plain" none "t0"]] 1
        (⟨[[]], []⟩, ⟨[[]], []⟩)).2 ["f"]).map FileData.mtime = some 1 ∧
    (lookupFile (sync ⟨fun _ => "h", fun _ => [some [7]], [], []⟩ false
        [[RNode.file "id1" "f" "text/plain" none "t0"]] 2
        (sync ⟨fun _ => "h", fun _ => [some [7]], [], []⟩ false
          [[RNode.file "id1" "f" "text/plain" none "t0"]] 1
          (⟨[[]], []⟩, ⟨[[]], []⟩))).2 ["f"]).map FileData.mtime = some 2 := by
  refine ⟨by decide, by decide, by decide⟩

/-- C1 amended: a second cycle over the same remote listing is a strict
no-op — both trees are returned unchanged, so file contents and
modification times are untouched — provided every listed entry carries a
content hash that matches the content its fetch delivers, entry relative
paths are pairwise distinct, and the staging tree holds no files at the
start of the first cycle (entries with no remote hash are re-fetched
every cycle, as the counterexample shows). -/
theorem C1_idempotence_amended :
    ∀ (env : Env) (pages : List (List RNode)) (t1 t2 : Nat) (s o : FS)
      (files : List DriveFile),
      get_drive_files false pages = .ok files →
      (∀ f ∈ files, ∃ data, downloadChunks (env.chunks f.id) = some data ∧
          f.md5Checksum = some (env.hash data)) →
      (files.map DriveFile.path).Nodup →
      s.files = [] →
      sync env false pages t2 (sync env false pages t1 (s, o))
        = sync env false pages t1 (s, o) := by
  intro env pages t1 t2 s o files hlist hok hnd hsf
  have hm1 : move_files env.copyFails s (reconcile env t1 files o)
      = (s.dirs.foldl ensure_dir (reconcile env t1 files o), true) := by
    rw [move_files]
    exact moveDirs_no_files _ s s.dirs _ hsf
  have hinner : sync env false pages t1 (s, o)
      = (s, s.dirs.foldl ensure_dir (reconcile env t1 files o)) := by
    simp only [sync, hlist, hm1]
    rw [purge_of_no_files _ s hsf]
  have hmd5 : ∀ f ∈ files,
      md5 env.hash (s.dirs.foldl ensure_dir (reconcile env t1 files o)) f.path
        = f.md5Checksum := by
    intro f hf
    have h1 := reconcile_establishes env t1 files o hok hnd f hf
    have h2 : lookupFile (s.dirs.foldl ensure_dir (reconcile env t1 files o)) f.path
        = lookupFile (reconcile env t1 files o) f.path := by
      simp only [lookupFile, foldl_ensure_dir_files]
    rw [md5_eq_of_lookup_eq env.hash _ (reconcile env t1 files o) f.path h2]
    exact h1
  have hrec2 : reconcile env t2 files
      (s.dirs.foldl ensure_dir (reconcile env t1 files o))
        = s.dirs.foldl ensure_dir (reconcile env t1 files o) := by
    apply reconcile_id
    intro f hf
    apply syncEntry_skip env t2 _ f (hmd5 f hf)
    obtain ⟨data, _, hck⟩ := hok f hf
    rw [hck]
    simp
  have hm2 : move_files env.copyFails s
      (s.dirs.foldl ensure_dir (reconcile env t1 files o))
        = (s.dirs.foldl ensure_dir (reconcile env t1 files o), true) :=
    move_files_empty_id _ s _ hsf fun d hd => foldl_ensure_dir_mem s.dirs _ hd
  rw [hinner]
  simp only [sync, hlist, hrec2, hm2]
  rw [purge_of_no_files _ s hsf]

/-- Witness for C1 amended: one entry whose checksum matches its
delivered content; the second cycle returns the state of the first
unchanged. -/
theorem C1_idempotence_amended_witness :
    sync ⟨fun _ => "h", fun _ => [some [7]], [], []⟩ false
        [[RNode.file "id1" "f" "text/plain" (some "h") "t0"]] 2
        (sync ⟨fun _ => "h", fun _ => [some [7]], [], []⟩ false
          [[RNode.file "id1" "f" "text/plain" (some "h") "t0"]] 1
          (⟨[[]], []⟩, ⟨[[]], []⟩))
      = sync ⟨fun _ => "h", fun _ => [some [7]], [], []⟩ false
          [[RNode.file "id1" "f" "text/plain" (some "h") "t0"]] 1
          (⟨[[]], []⟩, ⟨[[]], []⟩) := by
  exact C1_idempotence_amended ⟨fun _ => "h", fun _ => [some [7]], [], []⟩
    [[RNode.file "id1" "f" "text/plain" (some "h") "t0"]] 1 2
    ⟨[[]], []⟩ ⟨[[]], []⟩
    [⟨"id1", "f", "text/plain", some "h", "t0", ["f"]⟩]
    (by decide)
    (fun f hf => by
      rcases List.mem_singleton.mp hf with rfl
      exact ⟨[7], rfl, rfl⟩)
    (by decide) rfl

end DriveSync
